import Mathlib

/-!
Verification development for `record_data.py`, the benchmark-result aggregation
script of the multithreaded-LCS project.

Shallow embedding conventions:
* The file system is a function `String → Option String` (path to contents;
  `none` models a missing or unreadable file, i.e. `open` raising `OSError`).
* Python `float` values are modelled as exact rationals `ℚ`.  Every numeric
  literal appearing in the spec's scenarios (`12.5`, `10.0`, `1.0` … `8.0`,
  averages such as `4.5`) is a dyadic rational on which IEEE-754 double
  arithmetic is exact, so the idealisation is faithful on those inputs.
* Raised Python exceptions are modelled by the inductive `PipelineError` and
  `Except`: `fileNotFound` for `open` failing, `extractionError` for the
  explicit `raise ValueError(f"ERROR: Could not extract execution time for
  {file_name}")`, and `floatValueError` for `float()` raising `ValueError` on
  an unparseable token.
* Character classes `\s` and `\d` of the regex are modelled on the ASCII
  range, which covers all texts the spec and the benchmark outputs use.
-/

namespace RecordData

/-- The literal marker phrase of the regex look-behind
`(?<=Total time taken:)` at `record_data.py` lines 29, 59, 92. -/
def markerStr : String := "Total time taken:"

/-- The marker as a character list. -/
def markerChars : List Char := markerStr.data

/-- ASCII whitespace matched by the regex class `\s`. -/
def isSpaceChar (c : Char) : Bool :=
  c == ' ' || c == '\t' || c == '\n' || c == '\x0b' || c == '\x0c' || c == '\r'

/-- Predicate `listStartsWith p l` holds when `p` is a prefix of `l`. -/
def listStartsWith : List Char → List Char → Bool
  | [], _ => true
  | _ :: _, [] => false
  | p :: ps, c :: cs => p == c && listStartsWith ps cs

/-- Left-to-right scan of `re.search`: find the first position where the
look-behind `(?<=Total time taken:)` succeeds, i.e. the end of the first
marker occurrence, and return the remaining text.  `none` when the marker
does not occur (then `re.search` returns `None`, since the rest of the
pattern matches the empty string). -/
def findMarkerEnd (l : List Char) : Option (List Char) :=
  if listStartsWith markerChars l then some (l.drop markerChars.length)
  else
    match l with
    | [] => none
    | _ :: cs => findMarkerEnd cs

/-- The greedy capture group `(\d*[\.]?\d*)` applied at a point in the text:
a run of digits, then an optional single dot, then a run of digits. -/
def captureToken (l : List Char) : List Char :=
  let d1 := l.takeWhile Char.isDigit
  match l.dropWhile Char.isDigit with
  | '.' :: r2 => d1 ++ '.' :: r2.takeWhile Char.isDigit
  | _ => d1

/-- Models `re.search(r'(?<=Total time taken:)\s*(\d*[\.]?\d*)', text)` returning
`match.group(1)`: after the first marker occurrence skip whitespace greedily
and capture the numeric token (possibly empty). -/
def searchMatch (text : List Char) : Option (List Char) :=
  (findMarkerEnd text).map (fun rest => captureToken (rest.dropWhile isSpaceChar))

/-- Decimal value of a digit run (most significant first). -/
def natOfDigits (ds : List Char) : ℕ :=
  ds.foldl (fun n c => 10 * n + (c.toNat - 48)) 0

/-- Python `float()` restricted to the language of the capture group
`\d*\.?\d*`.  Returns `none` exactly when `float()` raises `ValueError`,
namely on the empty token and on the lone-dot token `"."`; every token
containing at least one digit parses (`"5."` to `5`, `".5"` to `1/2`). -/
def parsePyFloat (s : List Char) : Option ℚ :=
  let d1 := s.takeWhile Char.isDigit
  match s.dropWhile Char.isDigit with
  | [] => if d1.isEmpty then none else some (natOfDigits d1)
  | '.' :: ds =>
    if d1.isEmpty && ds.isEmpty then none
    else if ds.all Char.isDigit then
      some ((natOfDigits d1 : ℚ) + (natOfDigits ds : ℚ) / (10 : ℚ) ^ ds.length)
    else none
  | _ => none

/-- The exceptions the script can raise while processing one result file. -/
inductive PipelineError where
  /-- Case where `open(input_path)` raised (file missing or unreadable); the payload is
  the path passed to `open`. -/
  | fileNotFound (path : String)
  /-- The explicit `raise ValueError(f"ERROR: Could not extract execution
  time for {file_name}")` when `re.search` returns `None`; the payload is the
  file name embedded in the message. -/
  | extractionError (fileName : String)
  /-- Case where `float(match.group(1))` raised `ValueError`; the payload is the
  unparseable token (the file name does not appear in this exception). -/
  | floatValueError (token : String)
deriving DecidableEq, Repr

/-- Boolean success test for `Except`. -/
def exOk {α : Type} : Except PipelineError α → Bool
  | .ok _ => true
  | .error _ => false

instance {α : Type} [DecidableEq α] : DecidableEq (Except PipelineError α)
  | .error x, .error y =>
    if h : x = y then .isTrue (by rw [h]) else .isFalse (fun hc => h (by cases hc; rfl))
  | .error _, .ok _ => .isFalse (fun hc => by cases hc)
  | .ok _, .error _ => .isFalse (fun hc => by cases hc)
  | .ok x, .ok y =>
    if h : x = y then .isTrue (by rw [h]) else .isFalse (fun hc => h (by cases hc; rfl))

/-- Lines 30–33 of each recording function: run the regex on the file text,
raise if there is no match, otherwise convert the captured token with
`float`. -/
def extractTime (fileName : String) (text : List Char) : Except PipelineError ℚ :=
  match searchMatch text with
  | none => .error (.extractionError fileName)
  | some tok =>
    match parsePyFloat tok with
    | none => .error (.floatValueError ⟨tok⟩)
    | some q => .ok q

/-- Lines 27–33: open and read one result file, then extract its time. -/
def readAndExtract (fs : String → Option String) (inputPath fileName : String) :
    Except PipelineError ℚ :=
  match fs inputPath with
  | none => .error (.fileNotFound inputPath)
  | some text => extractTime fileName text.data

/-- Constant `OUT_DIR = 'data'` (line 11). -/
def OUT_DIR : String := "data"

/-- Constant `sequence_lengths = [100, 1000, 10000]` (line 13). -/
def sequence_lengths : List ℕ := [100, 1000, 10000]

/-- Constant `n_runs = 8` (line 14). -/
def n_runs : ℕ := 8

/-- Constant `process_counts = [1, 2, 4, 8]` (line 79). -/
def process_counts : List ℕ := [1, 2, 4, 8]

/-- Constant `thread_counts = [1, 2, 4, 8]` (line 47, in the disabled parallel path). -/
def thread_counts : List ℕ := [1, 2, 4, 8]

/-- Name `f"{algo}-L{sequence_length}-R{run}.out"` (line 25). -/
def serialFileName (L run : ℕ) : String :=
  "serial-L" ++ toString L ++ "-R" ++ toString run ++ ".out"

/-- Name `f"{algo}-L{sequence_length}-T{n_threads}-R{run}.out"` (line 55). -/
def parallelFileName (L t run : ℕ) : String :=
  "parallel-L" ++ toString L ++ "-T" ++ toString t ++ "-R" ++ toString run ++ ".out"

/-- Name `f"{algo}-L{sequence_length}-P{n_processes}-R{run}.out"` (line 88). -/
def distFileName (L p run : ℕ) : String :=
  "distributed-L" ++ toString L ++ "-P" ++ toString p ++ "-R" ++ toString run ++ ".out"

/-- Path `input_path = f"{in_dir}/L{sequence_length}/{file_name}"` (lines 26, 56, 89). -/
def runInputPath (in_dir : String) (L : ℕ) (fileName : String) : String :=
  in_dir ++ "/L" ++ toString L ++ "/" ++ fileName

/-- The inner `for run in range(1, n_runs + 1)` loop, accumulating
`execution_time += float(...)` and propagating the first raised exception. -/
def runsTotalAux (fs : String → Option String) (in_dir : String) (L : ℕ)
    (fname : ℕ → String) : List ℕ → ℚ → Except PipelineError ℚ
  | [], acc => .ok acc
  | r :: rs, acc =>
    match readAndExtract fs (runInputPath in_dir L (fname r)) (fname r) with
    | .error e => .error e
    | .ok q => runsTotalAux fs in_dir L fname rs (acc + q)

/-- Total execution time over runs `1 .. n_runs` for one configuration. -/
def runsTotal (fs : String → Option String) (in_dir : String) (L : ℕ)
    (fname : ℕ → String) : Except PipelineError ℚ :=
  runsTotalAux fs in_dir L fname (List.range' 1 n_runs) 0

/-- A pandas `DataFrame` as the script uses it: named columns and rows of
numeric cells, written out by `to_csv(out_path, index=False)` with the
column names as header row. -/
structure SummaryTable where
  columns : List String
  rows : List (List ℚ)
deriving DecidableEq, Repr

/-- Lines 23–38 of `record_serial` for one sequence length: sum the eight
runs and build the one-row frame `{'avg_execution_time': [avg]}` with
`avg = execution_time / float(n_runs)`. -/
def serialStep (fs : String → Option String) (L : ℕ) :
    Except PipelineError SummaryTable :=
  (runsTotal fs "output/serial" L (serialFileName L)).map
    (fun total => ⟨["avg_execution_time"], [[total / (n_runs : ℚ)]]⟩)

/-- The `for n_processes in process_counts` loop (lines 84–99): collect the
per-process-count averages in order, aborting on the first exception. -/
def distAvgsAux (fs : String → Option String) (L : ℕ) :
    List ℕ → List ℚ → Except PipelineError (List ℚ)
  | [], acc => .ok acc
  | pc :: pcs, acc =>
    match runsTotal fs "output/distributed" L (distFileName L pc) with
    | .error e => .error e
    | .ok total => distAvgsAux fs L pcs (acc ++ [total / (n_runs : ℚ)])

/-- Per-process-count averages for one sequence length. -/
def distAvgs (fs : String → Option String) (L : ℕ) :
    Except PipelineError (List ℚ) :=
  distAvgsAux fs L process_counts []

/-- Lines 83–104 of `record_distributed` for one sequence length: the frame
`{'n_processes': process_counts, 'avg_execution_time': avg_execution_times}`. -/
def distStep (fs : String → Option String) (L : ℕ) :
    Except PipelineError SummaryTable :=
  (distAvgs fs L).map
    (fun avgs =>
      ⟨["n_processes", "avg_execution_time"],
       (process_counts.zip avgs).map (fun p => [(p.1 : ℚ), p.2])⟩)

/-- Observable outcome of one recording function: the directories passed to
`os.makedirs(..., exist_ok=True)` in order, the `.csv` files written by
`to_csv` in order, and the exception that escaped, if any. -/
structure RunResult where
  dirs : List String
  written : List (String × SummaryTable)
  err : Option PipelineError
deriving DecidableEq, Repr

/-- The `for sequence_length in sequence_lengths` loop shared by the
recording functions: create the per-size output directory, run the step for
that size, write its table on success, abort leaving earlier side effects in
place on failure. -/
def modeLoop (outDirOf outPathOf : ℕ → String)
    (step : ℕ → Except PipelineError SummaryTable) :
    List ℕ → List String → List (String × SummaryTable) → RunResult
  | [], dirs, outs => ⟨dirs, outs, none⟩
  | L :: rest, dirs, outs =>
    let dirs' := dirs ++ [outDirOf L]
    match step L with
    | .error e => ⟨dirs', outs, some e⟩
    | .ok tbl => modeLoop outDirOf outPathOf step rest dirs' (outs ++ [(outPathOf L, tbl)])

/-- Directory `out_dir = f'{OUT_DIR}/{algo}/L{sequence_length}'` for serial (line 21). -/
def serialOutDir (L : ℕ) : String := OUT_DIR ++ "/serial/L" ++ toString L

/-- Path `out_path = f"{out_dir}/{algo}-L{sequence_length}.csv"` for serial (line 40). -/
def serialOutPath (L : ℕ) : String :=
  serialOutDir L ++ "/serial-L" ++ toString L ++ ".csv"

/-- Directory `out_dir` for distributed (line 81). -/
def distOutDir (L : ℕ) : String := OUT_DIR ++ "/distributed/L" ++ toString L

/-- Path `out_path` for distributed (line 106). -/
def distOutPath (L : ℕ) : String :=
  distOutDir L ++ "/distributed-L" ++ toString L ++ ".csv"

/-- Function `record_serial()` (lines 16–41) over an abstract file system. -/
def record_serial (fs : String → Option String) : RunResult :=
  modeLoop serialOutDir serialOutPath (serialStep fs) sequence_lengths
    [OUT_DIR ++ "/serial"] []

/-- Function `record_distributed()` (lines 75–107) over an abstract file system. -/
def record_distributed (fs : String → Option String) : RunResult :=
  modeLoop distOutDir distOutPath (distStep fs) sequence_lengths
    [OUT_DIR ++ "/distributed"] []

/-! ### Statement scaffolding

Definitions used only to phrase theorem statements about the embedding. -/

/-- Predicate `noStartWithin n l` : no occurrence of the marker starts at any of the
first `n` positions of `l`.  Used to say that a structural decomposition of
a text exhibits the *first* marker occurrence. -/
def noStartWithin : ℕ → List Char → Bool
  | 0, _ => true
  | _ + 1, [] => true
  | n + 1, c :: cs => !(listStartsWith markerChars (c :: cs)) && noStartWithin n cs

/-- A text decomposed around a marker occurrence: prefix, marker, whitespace
run, numeric token, remainder. -/
def mkText (pre ws tok rest : List Char) : List Char :=
  pre ++ (markerChars ++ (ws ++ (tok ++ rest)))

/-- A numeric token of the capture-group language: digits, then an optional
dot followed by further digits. -/
def mkToken (ds1 : List Char) (useDot : Bool) (ds2 : List Char) : List Char :=
  ds1 ++ (if useDot then '.' :: ds2 else [])

/-- The rational value `float()` assigns to such a token. -/
def tokenValue (ds1 : List Char) (useDot : Bool) (ds2 : List Char) : ℚ :=
  if useDot then (natOfDigits ds1 : ℚ) + (natOfDigits ds2 : ℚ) / (10 : ℚ) ^ ds2.length
  else (natOfDigits ds1 : ℚ)

/-- The spec's File Locator grammar, §4.1 / §6 (modelled from the spec's
words for comparison with the paths the code builds):
`<input_root>/<mode>/L<len>/<mode>-L<len>[-<marker><degree>]-R<run>.out`. -/
def specLocatorPath (input_root mode : String) (L : ℕ)
    (markerDeg : Option (String × ℕ)) (run : ℕ) : String :=
  input_root ++ "/" ++ mode ++ "/L" ++ toString L ++ "/" ++ mode ++ "-L" ++ toString L ++
    (match markerDeg with
     | none => ""
     | some md => "-" ++ md.1 ++ toString md.2) ++
    "-R" ++ toString run ++ ".out"

/-! ### Concrete file-system fixtures for witnesses and counterexamples -/

/-- Every path resolves to a file reporting a 10-second run. -/
def fsAll10 : String → Option String := fun _ => some "Total time taken: 10"

/-- Empty file system: every file is missing. -/
def fsNone : String → Option String := fun _ => none

/-- Only the first serial result file exists, containing the marker with no
numeric token after it. -/
def fsEmptyTok : String → Option String := fun p =>
  if p = "output/serial/L100/serial-L100-R1.out" then some "Total time taken:" else none

/-- The eight serial size-100 result files report 1 … 8 seconds. -/
def fs8 : String → Option String := fun p =>
  ((List.range' 1 8).find? (fun r =>
      p == runInputPath "output/serial" 100 (serialFileName 100 r))).map
    (fun r => "Total time taken: " ++ toString r)

/-- All distributed size-1000 process-count-4 files report 10 seconds;
every other file reports 20 seconds. -/
def fsTwenty : String → Option String := fun p =>
  if (List.range' 1 8).any (fun r =>
      p == runInputPath "output/distributed" 1000 (distFileName 1000 4 r)) then
    some "Total time taken: 10"
  else some "Total time taken: 20"

/-- The eight serial size-100 result files report 1 … 8 seconds as in `fs8`;
every other file reports 10 seconds. -/
def fsMix : String → Option String := fun p =>
  match fs8 p with
  | some t => some t
  | none => fsAll10 p

/-! ### Basic lemmas about the helpers -/

theorem exOk_iff_exists {α : Type} (e : Except PipelineError α) :
    exOk e = true ↔ ∃ a, e = .ok a := by
  cases e <;> simp [exOk]

theorem exOk_map {α β : Type} (f : α → β) (e : Except PipelineError α) :
    exOk (e.map f) = exOk e := by
  cases e <;> rfl

theorem listStartsWith_self_append (p t : List Char) :
    listStartsWith p (p ++ t) = true := by
  induction p with
  | nil => rfl
  | cons c cs ih => simp [listStartsWith, ih]

theorem span_all_append (p : Char → Bool) (l t : List Char)
    (hl : l.all p = true) (ht : ∀ c, t.head? = some c → p c = false) :
    (l ++ t).takeWhile p = l ∧ (l ++ t).dropWhile p = t := by
  induction l with
  | nil =>
    cases t with
    | nil => exact ⟨rfl, rfl⟩
    | cons c cs =>
      have hc : p c = false := ht c rfl
      simp [List.takeWhile, List.dropWhile, hc]
  | cons a l ih =>
    simp only [List.all_cons, Bool.and_eq_true] at hl
    have := ih hl.2
    simp [List.takeWhile, List.dropWhile, hl.1, this.1, this.2]

/-- If the marker starts nowhere inside `pre`, the regex scan finds the
occurrence exhibited by the decomposition and returns the suffix after it. -/
theorem findMarkerEnd_split (pre suf : List Char)
    (h : noStartWithin pre.length (pre ++ (markerChars ++ suf)) = true) :
    findMarkerEnd (pre ++ (markerChars ++ suf)) = some suf := by
  induction pre with
  | nil =>
    simp only [List.nil_append]
    rw [findMarkerEnd.eq_def]
    simp [listStartsWith_self_append]
  | cons c cs ih =>
    simp only [List.length_cons, List.cons_append, noStartWithin, List.append_eq,
      Bool.and_eq_true, Bool.not_eq_true'] at h
    rw [findMarkerEnd.eq_def]
    simp only [List.cons_append]
    rw [if_neg (by simp [h.1])]
    exact ih h.2

theorem isSpaceChar_eq_false_of_isDigit (c : Char) (h : c.isDigit = true) :
    isSpaceChar c = false := by
  by_contra hc
  rw [Bool.not_eq_false] at hc
  simp only [isSpaceChar, Bool.or_eq_true, beq_iff_eq] at hc
  rcases hc with ((((rfl | rfl) | rfl) | rfl) | rfl) | rfl <;> exact absurd h (by decide)

theorem isEmpty_eq_false_of_ne_nil {l : List Char} (h : l ≠ []) :
    l.isEmpty = false := by
  cases l with
  | nil => exact absurd rfl h
  | cons _ _ => rfl

/-- The greedy capture group recovers exactly the exhibited token when the
remainder cannot extend it. -/
theorem captureToken_of_token (ds1 ds2 rest : List Char) (useDot : Bool)
    (h1 : ds1.all Char.isDigit = true) (h2 : ds2.all Char.isDigit = true)
    (hrest : ∀ c, rest.head? = some c →
      Char.isDigit c = false ∧ (useDot = true ∨ c ≠ '.')) :
    captureToken (mkToken ds1 useDot ds2 ++ rest) = mkToken ds1 useDot ds2 := by
  cases useDot with
  | false =>
    simp only [mkToken, Bool.false_eq_true, if_false, List.append_nil]
    have hspan := span_all_append Char.isDigit ds1 rest h1 (fun c hc => (hrest c hc).1)
    unfold captureToken
    rw [hspan.1, hspan.2]
    cases rest with
    | nil => rfl
    | cons c r =>
      have hcdot : c ≠ '.' := by
        rcases (hrest c rfl).2 with h | h
        · exact absurd h (by decide)
        · exact h
      split
      · rename_i r2 heq
        injection heq with heq1 _
        exact absurd heq1 hcdot
      · rfl
  | true =>
    simp only [mkToken, if_true]
    rw [List.append_assoc, List.cons_append]
    have hspan := span_all_append Char.isDigit ds1 ('.' :: (ds2 ++ rest)) h1
      (fun c hc => by
        rw [List.head?_cons, Option.some_inj] at hc
        rw [← hc]; decide)
    unfold captureToken
    rw [hspan.1, hspan.2]
    have hspan2 := span_all_append Char.isDigit ds2 rest h2 (fun c hc => (hrest c hc).1)
    show ds1 ++ '.' :: (ds2 ++ rest).takeWhile Char.isDigit = ds1 ++ '.' :: ds2
    rw [hspan2.1]

/-- Evaluation of `float()` on an exhibited token with at least one digit. -/
theorem parsePyFloat_token (ds1 ds2 : List Char) (useDot : Bool)
    (h1 : ds1.all Char.isDigit = true) (h2 : ds2.all Char.isDigit = true)
    (hne : ds1 ≠ [] ∨ (useDot = true ∧ ds2 ≠ [])) :
    parsePyFloat (mkToken ds1 useDot ds2) = some (tokenValue ds1 useDot ds2) := by
  cases useDot with
  | false =>
    have hd1 : ds1 ≠ [] := by
      rcases hne with h | h
      · exact h
      · exact absurd h.1 (by decide)
    simp only [mkToken, tokenValue, Bool.false_eq_true, if_false, List.append_nil]
    have hspan := span_all_append Char.isDigit ds1 [] h1 (fun c hc => nomatch hc)
    rw [List.append_nil] at hspan
    unfold parsePyFloat
    rw [hspan.1, hspan.2]
    simp [isEmpty_eq_false_of_ne_nil hd1]
  | true =>
    have hne' : ds1 ≠ [] ∨ ds2 ≠ [] := by
      rcases hne with h | h
      · exact Or.inl h
      · exact Or.inr h.2
    simp only [mkToken, tokenValue, if_true]
    have hspan := span_all_append Char.isDigit ds1 ('.' :: ds2) h1
      (fun c hc => by
        rw [List.head?_cons, Option.some_inj] at hc
        rw [← hc]; decide)
    unfold parsePyFloat
    rw [hspan.1, hspan.2]
    have hand : (ds1.isEmpty && ds2.isEmpty) = false := by
      rcases hne' with h | h
      · rw [isEmpty_eq_false_of_ne_nil h, Bool.false_and]
      · rw [isEmpty_eq_false_of_ne_nil h, Bool.and_false]
    simp [hand, h2]

theorem token_head_not_space (ds1 ds2 rest : List Char) (useDot : Bool)
    (h1 : ds1.all Char.isDigit = true)
    (hne : ds1 ≠ [] ∨ (useDot = true ∧ ds2 ≠ [])) :
    ∀ c, (mkToken ds1 useDot ds2 ++ rest).head? = some c → isSpaceChar c = false := by
  intro c hc
  cases ds1 with
  | cons d ds =>
    simp only [mkToken, List.cons_append, List.head?_cons, Option.some_inj] at hc
    subst hc
    simp only [List.all_cons, Bool.and_eq_true] at h1
    exact isSpaceChar_eq_false_of_isDigit _ h1.1
  | nil =>
    cases useDot with
    | false =>
      rcases hne with h | h
      · exact absurd rfl h
      · exact absurd h.1 (by decide)
    | true =>
      simp only [mkToken, if_true, List.nil_append, List.cons_append,
        List.head?_cons, Option.some_inj] at hc
      subst hc
      decide

/-- Claim C1, general form: on a text whose first marker occurrence is
followed by optional whitespace and a maximal numeric token containing at
least one digit, the extractor returns that token's value. -/
theorem extractor_first_token (fn : String) (pre ws ds1 ds2 rest : List Char)
    (useDot : Bool)
    (hpre : noStartWithin pre.length (mkText pre ws (mkToken ds1 useDot ds2) rest) = true)
    (hws : ws.all isSpaceChar = true)
    (h1 : ds1.all Char.isDigit = true) (h2 : ds2.all Char.isDigit = true)
    (hne : ds1 ≠ [] ∨ (useDot = true ∧ ds2 ≠ []))
    (hrest : ∀ c, rest.head? = some c →
      Char.isDigit c = false ∧ (useDot = true ∨ c ≠ '.')) :
    extractTime fn (mkText pre ws (mkToken ds1 useDot ds2) rest) =
      .ok (tokenValue ds1 useDot ds2) := by
  have hfind : findMarkerEnd (mkText pre ws (mkToken ds1 useDot ds2) rest) =
      some (ws ++ (mkToken ds1 useDot ds2 ++ rest)) :=
    findMarkerEnd_split pre _ hpre
  have hdrop := (span_all_append isSpaceChar ws (mkToken ds1 useDot ds2 ++ rest) hws
      (token_head_not_space ds1 ds2 rest useDot h1 hne)).2
  have hsearch : searchMatch (mkText pre ws (mkToken ds1 useDot ds2) rest) =
      some (mkToken ds1 useDot ds2) := by
    rw [searchMatch, hfind, Option.map_some', hdrop,
      captureToken_of_token ds1 ds2 rest useDot h1 h2 hrest]
  simp only [extractTime, hsearch, parsePyFloat_token ds1 ds2 useDot h1 h2 hne]

/-- Witness for C1: the spec's own example text yields `12.5 = 25/2`. -/
theorem extractor_first_token_witness :
    extractTime "serial-L100-R1.out" ("Total time taken: 12.5".data) =
      .ok ((25 : ℚ) / 2) := by
  have h := extractor_first_token "serial-L100-R1.out" [] [' '] ['1', '2'] ['5'] []
    true (by decide) (by decide) (by decide) (by decide) (Or.inl (by decide))
    (fun c hc => nomatch hc)
  rw [show ("Total time taken: 12.5".data) =
      mkText [] [' '] (mkToken ['1', '2'] true ['5']) [] from by decide, h,
    show tokenValue ['1', '2'] true ['5'] = (25 : ℚ) / 2 from by
      rw [show tokenValue ['1', '2'] true ['5'] =
          ((natOfDigits ['1', '2'] : ℚ) + (natOfDigits ['5'] : ℚ) / (10 : ℚ) ^ (1 : ℕ))
        from rfl, show natOfDigits ['1', '2'] = 12 from rfl,
        show natOfDigits ['5'] = 5 from rfl]
      norm_num]

/-- Claim C3 (amended form): when the first marker occurrence is followed,
after optional whitespace, by neither a digit nor a dot, the regex match
succeeds with the empty capture — no `ExtractionError` is raised at the
matching step — and the subsequent `float('')` conversion raises the
numeric `ValueError` instead. -/
theorem extractor_empty_token (fn : String) (pre ws rest : List Char)
    (hpre : noStartWithin pre.length (mkText pre ws [] rest) = true)
    (hws : ws.all isSpaceChar = true)
    (hrest : ∀ c, rest.head? = some c →
      isSpaceChar c = false ∧ Char.isDigit c = false ∧ c ≠ '.') :
    searchMatch (mkText pre ws [] rest) = some [] ∧
    extractTime fn (mkText pre ws [] rest) = .error (.floatValueError "") := by
  have hfind : findMarkerEnd (mkText pre ws [] rest) = some (ws ++ ([] ++ rest)) :=
    findMarkerEnd_split pre _ hpre
  have hdrop := (span_all_append isSpaceChar ws ([] ++ rest) hws
      (fun c hc => (hrest c (by simpa using hc)).1)).2
  have hcap : captureToken rest = [] := by
    have hspan := span_all_append Char.isDigit [] rest rfl
      (fun c hc => (hrest c hc).2.1)
    rw [List.nil_append] at hspan
    unfold captureToken
    rw [hspan.1, hspan.2]
    cases rest with
    | nil => rfl
    | cons c r =>
      split
      · rename_i r2 heq
        injection heq with heq1 _
        exact absurd heq1 (hrest c rfl).2.2
      · rfl
  have hsearch : searchMatch (mkText pre ws [] rest) = some [] := by
    rw [searchMatch, hfind, Option.map_some', hdrop, List.nil_append, hcap]
  refine ⟨hsearch, ?_⟩
  simp only [extractTime, hsearch]
  rfl

/-- Witness for C3: marker followed by whitespace and letters. -/
theorem extractor_empty_token_witness :
    searchMatch ("Total time taken: sec".data) = some [] ∧
    extractTime "f.out" ("Total time taken: sec".data) =
      .error (.floatValueError "") := by
  have h := extractor_empty_token "f.out" [] [' '] ['s', 'e', 'c'] (by decide)
    (by decide)
    (fun c hc => by
      simp only [List.head?_cons, Option.some_inj] at hc
      subst hc
      exact ⟨by decide, by decide, by decide⟩)
  rw [show ("Total time taken: sec".data) = mkText [] [' '] [] ['s', 'e', 'c']
    from by decide]
  exact h

/-- Counterexample for C3 as literally stated: the text
`"Total time taken:."` contains the marker followed by no digits at all,
yet the capture is the one-character token `"."`, not the empty string. -/
theorem empty_token_dot_cex :
    searchMatch ("Total time taken:.".data) = some ['.'] ∧
    (['.'] : List Char) ≠ [] := ⟨by decide, by decide⟩

/-! ### Lemmas about the run loop, the process-count loop and the size loop -/

theorem runsTotalAux_ok_iff (fs : String → Option String) (in_dir : String)
    (L : ℕ) (fname : ℕ → String) (rs : List ℕ) (acc : ℚ) :
    exOk (runsTotalAux fs in_dir L fname rs acc) = true ↔
      ∀ r ∈ rs,
        exOk (readAndExtract fs (runInputPath in_dir L (fname r)) (fname r)) = true := by
  induction rs generalizing acc with
  | nil => simp [runsTotalAux, exOk]
  | cons r rs ih =>
    simp only [runsTotalAux, List.forall_mem_cons]
    cases h : readAndExtract fs (runInputPath in_dir L (fname r)) (fname r) with
    | error e => simp [exOk, h]
    | ok q =>
      show exOk (runsTotalAux fs in_dir L fname rs (acc + q)) = true ↔ _
      rw [ih (acc + q)]
      simp [exOk]

theorem runsTotalAux_congr (fs₁ fs₂ : String → Option String) (in_dir : String)
    (L : ℕ) (fname : ℕ → String) (rs : List ℕ) (acc : ℚ)
    (h : ∀ r ∈ rs, fs₁ (runInputPath in_dir L (fname r)) = fs₂ (runInputPath in_dir L (fname r))) :
    runsTotalAux fs₁ in_dir L fname rs acc = runsTotalAux fs₂ in_dir L fname rs acc := by
  induction rs generalizing acc with
  | nil => rfl
  | cons r rs ih =>
    have hre : readAndExtract fs₁ (runInputPath in_dir L (fname r)) (fname r) =
        readAndExtract fs₂ (runInputPath in_dir L (fname r)) (fname r) := by
      unfold readAndExtract
      rw [h r (List.mem_cons_self r rs)]
    simp only [runsTotalAux, hre]
    cases readAndExtract fs₂ (runInputPath in_dir L (fname r)) (fname r) with
    | error e => rfl
    | ok q => exact ih _ (fun x hx => h x (List.mem_cons_of_mem r hx))

theorem runsTotalAux_values (fs : String → Option String) (in_dir : String)
    (L : ℕ) (fname : ℕ → String) (v : ℕ → ℚ) (rs : List ℕ) (acc : ℚ)
    (h : ∀ r ∈ rs,
      readAndExtract fs (runInputPath in_dir L (fname r)) (fname r) = .ok (v r)) :
    runsTotalAux fs in_dir L fname rs acc = .ok (acc + (rs.map v).sum) := by
  induction rs generalizing acc with
  | nil => simp [runsTotalAux]
  | cons r rs ih =>
    simp only [runsTotalAux, h r (List.mem_cons_self r rs)]
    rw [ih _ (fun x hx => h x (List.mem_cons_of_mem r hx))]
    rw [List.map_cons, List.sum_cons, add_assoc]

theorem runsTotal_values (fs : String → Option String) (in_dir : String)
    (L : ℕ) (fname : ℕ → String) (v : ℕ → ℚ)
    (h : ∀ r ∈ List.range' 1 n_runs,
      readAndExtract fs (runInputPath in_dir L (fname r)) (fname r) = .ok (v r)) :
    runsTotal fs in_dir L fname = .ok (((List.range' 1 n_runs).map v).sum) := by
  rw [runsTotal, runsTotalAux_values fs in_dir L fname v _ 0 h, zero_add]

theorem distAvgsAux_ok_iff (fs : String → Option String) (L : ℕ)
    (pcs : List ℕ) (acc : List ℚ) :
    exOk (distAvgsAux fs L pcs acc) = true ↔
      ∀ pc ∈ pcs,
        exOk (runsTotal fs "output/distributed" L (distFileName L pc)) = true := by
  induction pcs generalizing acc with
  | nil => simp [distAvgsAux, exOk]
  | cons pc pcs ih =>
    simp only [distAvgsAux, List.forall_mem_cons]
    cases h : runsTotal fs "output/distributed" L (distFileName L pc) with
    | error e => simp [exOk, h]
    | ok t =>
      show exOk (distAvgsAux fs L pcs (acc ++ [t / (n_runs : ℚ)])) = true ↔ _
      rw [ih (acc ++ [t / (n_runs : ℚ)])]
      simp [exOk]

theorem distAvgsAux_values (fs : String → Option String) (L : ℕ) (u : ℕ → ℚ)
    (pcs : List ℕ) (acc : List ℚ)
    (h : ∀ pc ∈ pcs, runsTotal fs "output/distributed" L (distFileName L pc) = .ok (u pc)) :
    distAvgsAux fs L pcs acc = .ok (acc ++ pcs.map (fun pc => u pc / (n_runs : ℚ))) := by
  induction pcs generalizing acc with
  | nil => simp [distAvgsAux]
  | cons pc pcs ih =>
    simp only [distAvgsAux, h pc (List.mem_cons_self pc pcs)]
    rw [ih _ (fun x hx => h x (List.mem_cons_of_mem pc hx))]
    simp

theorem distAvgsAux_ok_spec (fs : String → Option String) (L : ℕ) :
    ∀ (pcs : List ℕ) (acc avgs : List ℚ),
    distAvgsAux fs L pcs acc = .ok avgs →
    avgs.length = acc.length + pcs.length ∧
    (∀ j, j < acc.length → avgs.get? j = acc.get? j) ∧
    (∀ j pc, pcs.get? j = some pc →
      ∃ t, runsTotal fs "output/distributed" L (distFileName L pc) = .ok t ∧
        avgs.get? (acc.length + j) = some (t / (n_runs : ℚ))) := by
  intro pcs
  induction pcs with
  | nil =>
    intro acc avgs h
    simp only [distAvgsAux] at h
    injection h with h
    subst h
    refine ⟨by simp, fun j _ => rfl, fun j pc hpc => nomatch hpc⟩
  | cons pc pcs ih =>
    intro acc avgs h
    simp only [distAvgsAux] at h
    cases hr : runsTotal fs "output/distributed" L (distFileName L pc) with
    | error e => rw [hr] at h; cases h
    | ok t =>
      rw [hr] at h
      obtain ⟨hlen, hpre, hidx⟩ := ih _ _ h
      rw [List.length_append, List.length_singleton] at hlen
      refine ⟨by simp only [List.length_cons]; omega, ?_, ?_⟩
      · intro j hj
        rw [hpre j (by simpa using Nat.lt_succ_of_lt hj),
          List.get?_append hj]
      · intro j pc' hpc
        cases j with
        | zero =>
          rw [List.get?_cons_zero, Option.some_inj] at hpc
          subst hpc
          refine ⟨t, hr, ?_⟩
          have := hpre acc.length (by simp)
          rw [Nat.add_zero, this, List.get?_append_right (le_refl _), Nat.sub_self]
          rfl
        | succ j =>
          rw [List.get?_cons_succ] at hpc
          obtain ⟨t', ht', hget⟩ := hidx j pc' hpc
          refine ⟨t', ht', ?_⟩
          rw [← hget, List.length_append, List.length_singleton]
          congr 1
          omega

theorem modeLoop_err_none_iff (od op : ℕ → String)
    (step : ℕ → Except PipelineError SummaryTable) :
    ∀ (Ls : List ℕ) (dirs : List String) (outs : List (String × SummaryTable)),
    (modeLoop od op step Ls dirs outs).err = none ↔ ∀ L ∈ Ls, exOk (step L) = true := by
  intro Ls
  induction Ls with
  | nil => intro dirs outs; simp [modeLoop]
  | cons L rest ih =>
    intro dirs outs
    simp only [modeLoop, List.forall_mem_cons]
    cases h : step L with
    | error e => simp [exOk, h]
    | ok tbl =>
      show (modeLoop od op step rest _ _).err = none ↔ _
      rw [ih]
      simp [exOk]

theorem modeLoop_dirs_mono (od op : ℕ → String)
    (step : ℕ → Except PipelineError SummaryTable) :
    ∀ (Ls : List ℕ) (dirs : List String) (outs : List (String × SummaryTable))
      (d : String), d ∈ dirs → d ∈ (modeLoop od op step Ls dirs outs).dirs := by
  intro Ls
  induction Ls with
  | nil => intro dirs outs d hd; exact hd
  | cons L rest ih =>
    intro dirs outs d hd
    simp only [modeLoop]
    cases h : step L with
    | error e => exact List.mem_append_left _ hd
    | ok tbl => exact ih _ _ d (List.mem_append_left _ hd)

theorem modeLoop_written_mem (od op : ℕ → String)
    (step : ℕ → Except PipelineError SummaryTable) :
    ∀ (Ls : List ℕ) (dirs : List String) (outs : List (String × SummaryTable))
      (e : String × SummaryTable),
    e ∈ (modeLoop od op step Ls dirs outs).written →
    e ∈ outs ∨ ∃ L ∈ Ls, ∃ tbl, step L = .ok tbl ∧ e = (op L, tbl) := by
  intro Ls
  induction Ls with
  | nil => intro dirs outs e he; exact Or.inl he
  | cons L rest ih =>
    intro dirs outs e he
    simp only [modeLoop] at he
    cases h : step L with
    | error e' =>
      rw [h] at he
      exact Or.inl he
    | ok tbl =>
      rw [h] at he
      rcases ih _ _ e he with hm | ⟨L', hL', tbl', htbl', rfl⟩
      · rcases List.mem_append.1 hm with hm | hm
        · exact Or.inl hm
        · rcases List.mem_singleton.1 hm with rfl
          exact Or.inr ⟨L, List.mem_cons_self L rest, tbl, h, rfl⟩
      · exact Or.inr ⟨L', List.mem_cons_of_mem L hL', tbl', htbl', rfl⟩

theorem modeLoop_dirs_reach (od op : ℕ → String)
    (step : ℕ → Except PipelineError SummaryTable) :
    ∀ (pre : List ℕ) (L : ℕ) (post : List ℕ) (dirs : List String)
      (outs : List (String × SummaryTable)),
    (∀ P ∈ pre, exOk (step P) = true) →
    od L ∈ (modeLoop od op step (pre ++ L :: post) dirs outs).dirs := by
  intro pre
  induction pre with
  | nil =>
    intro L post dirs outs _
    simp only [List.nil_append, modeLoop]
    cases h : step L with
    | error e => exact List.mem_append_right _ (List.mem_singleton_self _)
    | ok tbl =>
      exact modeLoop_dirs_mono od op step post _ _ _
        (List.mem_append_right _ (List.mem_singleton_self _))
  | cons P pre ih =>
    intro L post dirs outs hp
    simp only [List.cons_append, modeLoop]
    obtain ⟨tbl, htbl⟩ := (exOk_iff_exists _).1 (hp P (List.mem_cons_self P pre))
    rw [htbl]
    exact ih L post _ _ (fun x hx => hp x (List.mem_cons_of_mem P hx))

/-- A successful `serialStep` always has the serial one-row table shape. -/
theorem serialStep_ok_shape (fs : String → Option String) (L : ℕ)
    (t : SummaryTable) (h : serialStep fs L = .ok t) :
    ∃ tot, runsTotal fs "output/serial" L (serialFileName L) = .ok tot ∧
      t = ⟨["avg_execution_time"], [[tot / (n_runs : ℚ)]]⟩ := by
  unfold serialStep at h
  cases hr : runsTotal fs "output/serial" L (serialFileName L) with
  | error e => rw [hr] at h; cases h
  | ok tot =>
    rw [hr] at h
    injection h with h
    exact ⟨tot, rfl, h.symm⟩

theorem serialStep_exOk (fs : String → Option String) (L : ℕ) :
    exOk (serialStep fs L) = exOk (runsTotal fs "output/serial" L (serialFileName L)) :=
  exOk_map _ _

/-- A successful `distStep` always carries the four-row table built from a
fully successful `distAvgs`. -/
theorem distStep_ok_shape (fs : String → Option String) (L : ℕ)
    (t : SummaryTable) (h : distStep fs L = .ok t) :
    ∃ avgs, distAvgs fs L = .ok avgs ∧ avgs.length = 4 ∧
      t = ⟨["n_processes", "avg_execution_time"],
        (process_counts.zip avgs).map (fun p => [(p.1 : ℚ), p.2])⟩ := by
  unfold distStep at h
  cases hr : distAvgs fs L with
  | error e => rw [hr] at h; cases h
  | ok avgs =>
    rw [hr] at h
    injection h with h
    have hlen := (distAvgsAux_ok_spec fs L process_counts [] avgs hr).1
    simp only [List.length_nil, Nat.zero_add] at hlen
    exact ⟨avgs, rfl, hlen, h.symm⟩

theorem distStep_exOk (fs : String → Option String) (L : ℕ) :
    exOk (distStep fs L) = exOk (distAvgs fs L) :=
  exOk_map _ _

/-- One configuration's averages, when every extraction succeeds with the
given values. -/
theorem distAvgs_values (fs : String → Option String) (L : ℕ) (w : ℕ → ℕ → ℚ)
    (h : ∀ pc ∈ process_counts, ∀ r ∈ List.range' 1 n_runs,
      readAndExtract fs (runInputPath "output/distributed" L (distFileName L pc r))
        (distFileName L pc r) = .ok (w pc r)) :
    distAvgs fs L = .ok (process_counts.map
      (fun pc => ((List.range' 1 n_runs).map (w pc)).sum / (n_runs : ℚ))) := by
  unfold distAvgs
  rw [distAvgsAux_values fs L (fun pc => ((List.range' 1 n_runs).map (w pc)).sum)
    process_counts [] (fun pc hpc => runsTotal_values fs _ L _ (w pc) (h pc hpc))]
  simp

/-- When the per-size step fails for a size in the matrix, the mode's loop
ends in an error and that size's summary path is never among the written
files. -/
theorem modeFail_not_written (od op : ℕ → String)
    (step : ℕ → Except PipelineError SummaryTable) (d0 : String) (L : ℕ)
    (hL : L ∈ sequence_lengths)
    (hinj : ∀ a ∈ sequence_lengths, ∀ b ∈ sequence_lengths, op a = op b → a = b)
    (hfail : exOk (step L) = false) :
    (modeLoop od op step sequence_lengths [d0] []).err ≠ none ∧
    op L ∉ (modeLoop od op step sequence_lengths [d0] []).written.map Prod.fst := by
  constructor
  · intro hnone
    have := (modeLoop_err_none_iff od op step sequence_lengths [d0] []).1 hnone L hL
    rw [hfail] at this
    exact absurd this (by decide)
  · intro hmem
    obtain ⟨e, he, hfst⟩ := List.mem_map.1 hmem
    rcases modeLoop_written_mem od op step sequence_lengths [d0] [] e he with
      h0 | ⟨L', hL', tbl, hok, rfl⟩
    · exact absurd h0 (List.not_mem_nil e)
    · have : L' = L := hinj L' hL' L hL hfst
      subst this
      rw [hok] at hfail
      simp [exOk] at hfail

/-- Claim C4: the Aggregator forms the arithmetic mean of the `N = 8`
extracted durations of run indices 1..8 as their sum divided by 8, with no
outlier rejection, in both modes: the serial step emits that mean directly,
and the distributed table's entry for any process count is the same
`sum / 8` of that configuration's eight extracted durations; in particular
durations `1.0 … 8.0` average to `4.5`. -/
theorem aggregator_mean (fs : String → Option String) (L : ℕ) (v : ℕ → ℚ)
    (h : ∀ r ∈ List.range' 1 n_runs,
      readAndExtract fs (runInputPath "output/serial" L (serialFileName L r))
        (serialFileName L r) = .ok (v r)) :
    n_runs = 8 ∧ List.range' 1 n_runs = [1, 2, 3, 4, 5, 6, 7, 8] ∧
    serialStep fs L = .ok ⟨["avg_execution_time"],
      [[((List.range' 1 n_runs).map v).sum / (n_runs : ℚ)]]⟩ ∧
    ((∀ r ∈ List.range' 1 n_runs, v r = (r : ℚ)) →
      serialStep fs L = .ok ⟨["avg_execution_time"], [[(9 : ℚ) / 2]]⟩) ∧
    (∀ (pc i : ℕ) (w : ℕ → ℚ) (avgs : List ℚ),
      process_counts.get? i = some pc →
      (∀ r ∈ List.range' 1 n_runs,
        readAndExtract fs (runInputPath "output/distributed" L (distFileName L pc r))
          (distFileName L pc r) = .ok (w r)) →
      distAvgs fs L = .ok avgs →
      avgs.get? i = some (((List.range' 1 n_runs).map w).sum / (n_runs : ℚ))) := by
  have hstep : serialStep fs L = .ok ⟨["avg_execution_time"],
      [[((List.range' 1 n_runs).map v).sum / (n_runs : ℚ)]]⟩ := by
    unfold serialStep
    rw [runsTotal_values fs _ L _ v h]
    rfl
  refine ⟨rfl, by decide, hstep, ?_, ?_⟩
  · intro hv
    have hsum : ((List.range' 1 n_runs).map v).sum / (n_runs : ℚ) = (9 : ℚ) / 2 := by
      rw [show List.range' 1 n_runs = [1, 2, 3, 4, 5, 6, 7, 8] from by decide]
      simp only [List.map_cons, List.map_nil, List.sum_cons, List.sum_nil]
      rw [hv 1 (by decide), hv 2 (by decide), hv 3 (by decide), hv 4 (by decide),
        hv 5 (by decide), hv 6 (by decide), hv 7 (by decide), hv 8 (by decide)]
      norm_num [n_runs]
    rw [hstep, hsum]
  · intro pc i w avgs hpci hw havgs
    obtain ⟨-, -, hidx⟩ := distAvgsAux_ok_spec fs L process_counts [] avgs havgs
    obtain ⟨t, ht, hget⟩ := hidx i pc hpci
    rw [List.length_nil, Nat.zero_add] at hget
    rw [runsTotal_values fs "output/distributed" L (distFileName L pc) w hw] at ht
    injection ht with he
    rw [hget, ← he]

/-- Witness for C4: eight serial files reporting 1 … 8 seconds average to
`4.5 = 9/2`, and the distributed process-count-4 entry is its own
eight 10-second durations summed and divided by 8. -/
theorem aggregator_mean_witness :
    serialStep fsMix 100 = .ok ⟨["avg_execution_time"], [[(9 : ℚ) / 2]]⟩ ∧
    ∃ avgs : List ℚ, distAvgs fsMix 100 = .ok avgs ∧
      avgs.get? 2 =
        some (((List.range' 1 n_runs).map (fun _ => ((10 : ℕ) : ℚ))).sum / (n_runs : ℚ)) := by
  have h := aggregator_mean fsMix 100 (fun r => (r : ℚ)) (by decide)
  have hd := distAvgs_values fsMix 100 (fun _ _ => ((10 : ℕ) : ℚ)) (by decide)
  exact ⟨h.2.2.2.1 (fun r _ => rfl),
    ⟨_, hd, h.2.2.2.2 4 2 (fun _ => ((10 : ℕ) : ℚ)) _ rfl (by decide) hd⟩⟩

/-- Claim C5: if any one of the 8 result files of a configuration fails to
read or parse, the whole aggregation of that mode errors out and that input
size's summary file is not emitted. -/
theorem missing_file_aborts (fs : String → Option String) (L r : ℕ)
    (hL : L ∈ sequence_lengths) (hr : r ∈ List.range' 1 n_runs) :
    ((exOk (readAndExtract fs (runInputPath "output/serial" L (serialFileName L r))
        (serialFileName L r)) = false →
      (record_serial fs).err ≠ none ∧
        serialOutPath L ∉ (record_serial fs).written.map Prod.fst) ∧
    (∀ pc ∈ process_counts,
      exOk (readAndExtract fs (runInputPath "output/distributed" L (distFileName L pc r))
        (distFileName L pc r)) = false →
      (record_distributed fs).err ≠ none ∧
        distOutPath L ∉ (record_distributed fs).written.map Prod.fst)) := by
  constructor
  · intro hfile
    have hrt : exOk (runsTotal fs "output/serial" L (serialFileName L)) = false := by
      cases hcase : exOk (runsTotal fs "output/serial" L (serialFileName L)) with
      | false => rfl
      | true =>
        have := (runsTotalAux_ok_iff fs "output/serial" L (serialFileName L)
          (List.range' 1 n_runs) 0).1 hcase r hr
        rw [hfile] at this
        exact absurd this (by decide)
    have hstep : exOk (serialStep fs L) = false := by
      rw [serialStep_exOk]; exact hrt
    exact modeFail_not_written serialOutDir serialOutPath (serialStep fs)
      (OUT_DIR ++ "/serial") L hL (by decide) hstep
  · intro pc hpc hfile
    have hrt : exOk (runsTotal fs "output/distributed" L (distFileName L pc)) = false := by
      cases hcase : exOk (runsTotal fs "output/distributed" L (distFileName L pc)) with
      | false => rfl
      | true =>
        have := (runsTotalAux_ok_iff fs "output/distributed" L (distFileName L pc)
          (List.range' 1 n_runs) 0).1 hcase r hr
        rw [hfile] at this
        exact absurd this (by decide)
    have hda : exOk (distAvgs fs L) = false := by
      cases hcase : exOk (distAvgs fs L) with
      | false => rfl
      | true =>
        have := (distAvgsAux_ok_iff fs L process_counts []).1 hcase pc hpc
        rw [hrt] at this
        exact absurd this (by decide)
    have hstep : exOk (distStep fs L) = false := by
      rw [distStep_exOk]; exact hda
    exact modeFail_not_written distOutDir distOutPath (distStep fs)
      (OUT_DIR ++ "/distributed") L hL (by decide) hstep

/-- Witness for C5: with every result file missing, both modes fail and the
size-100 summaries are not written. -/
theorem missing_file_aborts_witness :
    ((record_serial fsNone).err ≠ none ∧
      serialOutPath 100 ∉ (record_serial fsNone).written.map Prod.fst) ∧
    ((record_distributed fsNone).err ≠ none ∧
      distOutPath 100 ∉ (record_distributed fsNone).written.map Prod.fst) := by
  have h := missing_file_aborts fsNone 100 1 (by decide) (by decide)
  exact ⟨h.1 (by decide), h.2 1 (by decide) (by decide)⟩

/-- Claim C6: for each mode, a single bad file anywhere in one input size's
matrix invalidates that size's whole in-progress aggregation — the serial
one-row table, respectively the distributed four-row table, is not emitted
at all — and every table either mode does emit is the untruncated result of
a fully successful aggregation (no default values, no partial rows). -/
theorem no_incomplete_emission (fs : String → Option String) (L : ℕ)
    (hL : L ∈ sequence_lengths) :
    ((exOk (runsTotal fs "output/serial" L (serialFileName L)) = false →
        (record_serial fs).err ≠ none ∧
        serialOutPath L ∉ (record_serial fs).written.map Prod.fst) ∧
      ∀ p t, (p, t) ∈ (record_serial fs).written →
        ∃ L' tot, L' ∈ sequence_lengths ∧ p = serialOutPath L' ∧
          runsTotal fs "output/serial" L' (serialFileName L') = .ok tot ∧
          t = ⟨["avg_execution_time"], [[tot / (n_runs : ℚ)]]⟩) ∧
    ((∀ pc ∈ process_counts,
        exOk (runsTotal fs "output/distributed" L (distFileName L pc)) = false →
        (record_distributed fs).err ≠ none ∧
        distOutPath L ∉ (record_distributed fs).written.map Prod.fst) ∧
      ∀ p t, (p, t) ∈ (record_distributed fs).written →
        ∃ L' avgs, L' ∈ sequence_lengths ∧ p = distOutPath L' ∧
          distAvgs fs L' = .ok avgs ∧
          t = ⟨["n_processes", "avg_execution_time"],
            (process_counts.zip avgs).map (fun q => [(q.1 : ℚ), q.2])⟩) := by
  refine ⟨⟨?_, ?_⟩, ?_, ?_⟩
  · intro hfail
    have hstep : exOk (serialStep fs L) = false := by
      rw [serialStep_exOk]; exact hfail
    exact modeFail_not_written serialOutDir serialOutPath (serialStep fs)
      (OUT_DIR ++ "/serial") L hL (by decide) hstep
  · intro p t hmem
    rcases modeLoop_written_mem serialOutDir serialOutPath (serialStep fs)
      sequence_lengths [OUT_DIR ++ "/serial"] [] (p, t) hmem with
      h0 | ⟨L', hL', tbl, hok, heq⟩
    · exact absurd h0 (List.not_mem_nil _)
    · injection heq with hp ht
      subst hp
      subst ht
      obtain ⟨tot, htot, htbl⟩ := serialStep_ok_shape fs L' t hok
      exact ⟨L', tot, hL', rfl, htot, htbl⟩
  · intro pc hpc hfail
    have hda : exOk (distAvgs fs L) = false := by
      cases hcase : exOk (distAvgs fs L) with
      | false => rfl
      | true =>
        have := (distAvgsAux_ok_iff fs L process_counts []).1 hcase pc hpc
        rw [hfail] at this
        exact absurd this (by decide)
    have hstep : exOk (distStep fs L) = false := by
      rw [distStep_exOk]; exact hda
    exact modeFail_not_written distOutDir distOutPath (distStep fs)
      (OUT_DIR ++ "/distributed") L hL (by decide) hstep
  · intro p t hmem
    rcases modeLoop_written_mem distOutDir distOutPath (distStep fs)
      sequence_lengths [OUT_DIR ++ "/distributed"] [] (p, t) hmem with
      h0 | ⟨L', hL', tbl, hok, heq⟩
    · exact absurd h0 (List.not_mem_nil _)
    · injection heq with hp ht
      subst hp
      subst ht
      obtain ⟨avgs, havgs, _, htbl⟩ := distStep_ok_shape fs L' t hok
      exact ⟨L', avgs, hL', rfl, havgs, htbl⟩

/-- Witness for C6: with every result file missing, both the serial and the
distributed size-1000 aggregations abort with no summary emitted. -/
theorem no_incomplete_emission_witness :
    ((record_serial fsNone).err ≠ none ∧
      serialOutPath 1000 ∉ (record_serial fsNone).written.map Prod.fst) ∧
    ((record_distributed fsNone).err ≠ none ∧
      distOutPath 1000 ∉ (record_distributed fsNone).written.map Prod.fst) := by
  have h := no_incomplete_emission fsNone 1000 (by decide)
  exact ⟨h.1.1 (by decide), h.2.1 4 (by decide) (by decide)⟩

/-- Claim C2 (amended form): each mode's run succeeds exactly when every
required file of its matrix reads and parses; a missing file raises an error
carrying the path, a marker-less file raises the extraction error carrying
the file name — never a zero value — but a present marker whose token fails
`float()` raises the numeric error carrying the token, not the file name. -/
theorem pipeline_failure_characterization (fs : String → Option String) :
    ((record_serial fs).err = none ↔
      ∀ L ∈ sequence_lengths, ∀ r ∈ List.range' 1 n_runs,
        exOk (readAndExtract fs (runInputPath "output/serial" L (serialFileName L r))
          (serialFileName L r)) = true) ∧
    ((record_distributed fs).err = none ↔
      ∀ L ∈ sequence_lengths, ∀ pc ∈ process_counts, ∀ r ∈ List.range' 1 n_runs,
        exOk (readAndExtract fs
          (runInputPath "output/distributed" L (distFileName L pc r))
          (distFileName L pc r)) = true) ∧
    (∀ path fn, fs path = none →
      readAndExtract fs path fn = .error (.fileNotFound path)) ∧
    (∀ path fn text, fs path = some text → searchMatch text.data = none →
      readAndExtract fs path fn = .error (.extractionError fn)) ∧
    (∀ path fn text tok, fs path = some text → searchMatch text.data = some tok →
      parsePyFloat tok = none →
      readAndExtract fs path fn = .error (.floatValueError ⟨tok⟩)) := by
  refine ⟨?_, ?_, ?_, ?_, ?_⟩
  · refine (modeLoop_err_none_iff serialOutDir serialOutPath (serialStep fs)
      sequence_lengths [OUT_DIR ++ "/serial"] []).trans ?_
    refine forall_congr' (fun L => imp_congr_right (fun _ => ?_))
    rw [serialStep_exOk]
    exact runsTotalAux_ok_iff fs "output/serial" L (serialFileName L)
      (List.range' 1 n_runs) 0
  · refine (modeLoop_err_none_iff distOutDir distOutPath (distStep fs)
      sequence_lengths [OUT_DIR ++ "/distributed"] []).trans ?_
    refine forall_congr' (fun L => imp_congr_right (fun _ => ?_))
    rw [distStep_exOk]
    refine (distAvgsAux_ok_iff fs L process_counts []).trans ?_
    refine forall_congr' (fun pc => imp_congr_right (fun _ => ?_))
    exact runsTotalAux_ok_iff fs "output/distributed" L (distFileName L pc)
      (List.range' 1 n_runs) 0
  · intro path fn h
    simp [readAndExtract, h]
  · intro path fn text h hsm
    simp [readAndExtract, extractTime, h, hsm]
  · intro path fn text tok h hsm hp
    simp [readAndExtract, extractTime, h, hsm, hp]

/-- Witness for C2 (amended): a missing file fails with the path-carrying
error. -/
theorem pipeline_failure_characterization_witness :
    readAndExtract fsNone "output/serial/L100/serial-L100-R1.out"
      "serial-L100-R1.out" =
      .error (.fileNotFound "output/serial/L100/serial-L100-R1.out") :=
  (pipeline_failure_characterization fsNone).2.2.1 _ _ rfl

/-- Counterexample for C2 as stated: when the first serial file contains the
bare marker, the run fails with `float('')`'s `ValueError`, whose payload is
the empty token — not an `ExtractionError` carrying the file name. -/
theorem pipeline_error_payload_cex :
    (record_serial fsEmptyTok).err = some (.floatValueError "") ∧
    (record_serial fsEmptyTok).err ≠ some (.extractionError "serial-L100-R1.out") ∧
    (record_serial fsEmptyTok).err ≠
      some (.extractionError
        "ERROR: Could not extract execution time for serial-L100-R1.out") :=
  ⟨by decide, by decide, by decide⟩

/-- Merging two leading literal chunks of a string concatenation. -/
theorem str_chunk2 (a b c : String) (h : a ++ b = c) (X : String) :
    a ++ (b ++ X) = c ++ X := by
  rw [← String.append_assoc, h]

/-- Merging three leading literal chunks of a string concatenation. -/
theorem str_chunk3 (a b c d : String) (h : a ++ b ++ c = d) (X : String) :
    a ++ (b ++ (c ++ X)) = d ++ X := by
  rw [← String.append_assoc, ← String.append_assoc, h]

/-- Merging four leading literal chunks of a string concatenation. -/
theorem str_chunk4 (a b c d e : String) (h : a ++ b ++ c ++ d = e) (X : String) :
    a ++ (b ++ (c ++ (d ++ X))) = e ++ X := by
  rw [← String.append_assoc, ← String.append_assoc, ← String.append_assoc, h]

/-- Claim C7: for every mode the result-file path built by the code equals
the spec's locator grammar
`<input_root>/<mode>/L<len>/<mode>-L<len>[-<marker><degree>]-R<run>.out`,
with marker `P` for distributed, `T` for parallel, and none for serial; both
sides are pure functions of the identifiers, hence byte-for-byte
deterministic. -/
theorem locator_path_grammar (L run pc tc : ℕ) :
    runInputPath "output/serial" L (serialFileName L run) =
      specLocatorPath "output" "serial" L none run ∧
    runInputPath "output/distributed" L (distFileName L pc run) =
      specLocatorPath "output" "distributed" L (some ("P", pc)) run ∧
    runInputPath "output/parallel" L (parallelFileName L tc run) =
      specLocatorPath "output" "parallel" L (some ("T", tc)) run := by
  refine ⟨?_, ?_, ?_⟩
  · simp only [runInputPath, serialFileName, specLocatorPath,
      String.append_assoc, String.append_empty]
    rw [str_chunk4 "output" "/" "serial" "/L" "output/serial/L" (by decide),
      str_chunk2 "output/serial" "/L" "output/serial/L" (by decide),
      str_chunk3 "/" "serial" "-L" "/serial-L" (by decide),
      str_chunk2 "/" "serial-L" "/serial-L" (by decide)]
  · simp only [runInputPath, distFileName, specLocatorPath,
      String.append_assoc, String.append_empty]
    rw [str_chunk4 "output" "/" "distributed" "/L" "output/distributed/L" (by decide),
      str_chunk2 "output/distributed" "/L" "output/distributed/L" (by decide),
      str_chunk3 "/" "distributed" "-L" "/distributed-L" (by decide),
      str_chunk2 "/" "distributed-L" "/distributed-L" (by decide),
      str_chunk2 "-" "P" "-P" (by decide)]
  · simp only [runInputPath, parallelFileName, specLocatorPath,
      String.append_assoc, String.append_empty]
    rw [str_chunk4 "output" "/" "parallel" "/L" "output/parallel/L" (by decide),
      str_chunk2 "output/parallel" "/L" "output/parallel/L" (by decide),
      str_chunk3 "/" "parallel" "-L" "/parallel-L" (by decide),
      str_chunk2 "/" "parallel-L" "/parallel-L" (by decide),
      str_chunk2 "-" "T" "-T" (by decide)]

/-- Claim C8: on success each mode persists one summary per input size at
`data/<mode>/L<size>/<mode>-L<size>.csv`; the serial table has the single
column `avg_execution_time` with one row, the distributed table the columns
`n_processes` and `avg_execution_time` with one row per process count in
`[1, 2, 4, 8]`. -/
theorem summary_layout (fs : String → Option String) :
    (serialOutPath 100 = "data/serial/L100/serial-L100.csv" ∧
     serialOutPath 1000 = "data/serial/L1000/serial-L1000.csv" ∧
     serialOutPath 10000 = "data/serial/L10000/serial-L10000.csv" ∧
     distOutPath 100 = "data/distributed/L100/distributed-L100.csv" ∧
     distOutPath 1000 = "data/distributed/L1000/distributed-L1000.csv" ∧
     distOutPath 10000 = "data/distributed/L10000/distributed-L10000.csv" ∧
     process_counts = [1, 2, 4, 8]) ∧
    ((record_serial fs).err = none →
      ∃ q1 q2 q3 : ℚ, (record_serial fs).written =
        [(serialOutPath 100, ⟨["avg_execution_time"], [[q1]]⟩),
         (serialOutPath 1000, ⟨["avg_execution_time"], [[q2]]⟩),
         (serialOutPath 10000, ⟨["avg_execution_time"], [[q3]]⟩)]) ∧
    ((record_distributed fs).err = none →
      ∃ a1 a2 a3 : List ℚ, a1.length = 4 ∧ a2.length = 4 ∧ a3.length = 4 ∧
        (record_distributed fs).written =
        [(distOutPath 100, ⟨["n_processes", "avg_execution_time"],
            (process_counts.zip a1).map (fun p => [(p.1 : ℚ), p.2])⟩),
         (distOutPath 1000, ⟨["n_processes", "avg_execution_time"],
            (process_counts.zip a2).map (fun p => [(p.1 : ℚ), p.2])⟩),
         (distOutPath 10000, ⟨["n_processes", "avg_execution_time"],
            (process_counts.zip a3).map (fun p => [(p.1 : ℚ), p.2])⟩)]) := by
  refine ⟨⟨by decide, by decide, by decide, by decide, by decide, by decide, rfl⟩, ?_, ?_⟩
  · intro herr
    have hok := (modeLoop_err_none_iff serialOutDir serialOutPath (serialStep fs)
      sequence_lengths [OUT_DIR ++ "/serial"] []).1 herr
    obtain ⟨t1, h1⟩ := (exOk_iff_exists _).1 (hok 100 (by decide))
    obtain ⟨t2, h2⟩ := (exOk_iff_exists _).1 (hok 1000 (by decide))
    obtain ⟨t3, h3⟩ := (exOk_iff_exists _).1 (hok 10000 (by decide))
    obtain ⟨tot1, -, ht1⟩ := serialStep_ok_shape fs 100 t1 h1
    obtain ⟨tot2, -, ht2⟩ := serialStep_ok_shape fs 1000 t2 h2
    obtain ⟨tot3, -, ht3⟩ := serialStep_ok_shape fs 10000 t3 h3
    refine ⟨tot1 / (n_runs : ℚ), tot2 / (n_runs : ℚ), tot3 / (n_runs : ℚ), ?_⟩
    show (modeLoop serialOutDir serialOutPath (serialStep fs)
      sequence_lengths [OUT_DIR ++ "/serial"] []).written = _
    simp only [sequence_lengths, modeLoop, h1, h2, h3]
    rw [ht1, ht2, ht3]
    rfl
  · intro herr
    have hok := (modeLoop_err_none_iff distOutDir distOutPath (distStep fs)
      sequence_lengths [OUT_DIR ++ "/distributed"] []).1 herr
    obtain ⟨t1, h1⟩ := (exOk_iff_exists _).1 (hok 100 (by decide))
    obtain ⟨t2, h2⟩ := (exOk_iff_exists _).1 (hok 1000 (by decide))
    obtain ⟨t3, h3⟩ := (exOk_iff_exists _).1 (hok 10000 (by decide))
    obtain ⟨a1, -, hl1, ht1⟩ := distStep_ok_shape fs 100 t1 h1
    obtain ⟨a2, -, hl2, ht2⟩ := distStep_ok_shape fs 1000 t2 h2
    obtain ⟨a3, -, hl3, ht3⟩ := distStep_ok_shape fs 10000 t3 h3
    refine ⟨a1, a2, a3, hl1, hl2, hl3, ?_⟩
    show (modeLoop distOutDir distOutPath (distStep fs)
      sequence_lengths [OUT_DIR ++ "/distributed"] []).written = _
    simp only [sequence_lengths, modeLoop, h1, h2, h3]
    rw [ht1, ht2, ht3]
    rfl

/-- Witness for C8: with every file reporting 10 seconds, both runs succeed
and emit the three summaries in the documented layout. -/
theorem summary_layout_witness :
    (∃ q1 q2 q3 : ℚ, (record_serial fsAll10).written =
        [(serialOutPath 100, ⟨["avg_execution_time"], [[q1]]⟩),
         (serialOutPath 1000, ⟨["avg_execution_time"], [[q2]]⟩),
         (serialOutPath 10000, ⟨["avg_execution_time"], [[q3]]⟩)]) ∧
    (∃ a1 a2 a3 : List ℚ, a1.length = 4 ∧ a2.length = 4 ∧ a3.length = 4 ∧
      (record_distributed fsAll10).written =
        [(distOutPath 100, ⟨["n_processes", "avg_execution_time"],
            (process_counts.zip a1).map (fun p => [(p.1 : ℚ), p.2])⟩),
         (distOutPath 1000, ⟨["n_processes", "avg_execution_time"],
            (process_counts.zip a2).map (fun p => [(p.1 : ℚ), p.2])⟩),
         (distOutPath 10000, ⟨["n_processes", "avg_execution_time"],
            (process_counts.zip a3).map (fun p => [(p.1 : ℚ), p.2])⟩)]) :=
  ⟨(summary_layout fsAll10).2.1 (by decide), (summary_layout fsAll10).2.2 (by decide)⟩

/-- Claim C9: the distributed row of one process count depends only on that
configuration's own eight files — two file systems agreeing on those eight
paths produce the same entry at that process count's index. -/
theorem dist_row_noninterference (fs₁ fs₂ : String → Option String)
    (L pc i : ℕ) (avgs₁ avgs₂ : List ℚ)
    (hpc : process_counts.get? i = some pc)
    (hagree : ∀ r ∈ List.range' 1 n_runs,
      fs₁ (runInputPath "output/distributed" L (distFileName L pc r)) =
        fs₂ (runInputPath "output/distributed" L (distFileName L pc r)))
    (h₁ : distAvgs fs₁ L = .ok avgs₁) (h₂ : distAvgs fs₂ L = .ok avgs₂) :
    avgs₁.get? i = avgs₂.get? i ∧ avgs₁.get? i ≠ none := by
  obtain ⟨-, -, hidx₁⟩ := distAvgsAux_ok_spec fs₁ L process_counts [] avgs₁ h₁
  obtain ⟨-, -, hidx₂⟩ := distAvgsAux_ok_spec fs₂ L process_counts [] avgs₂ h₂
  obtain ⟨t₁, ht₁, hget₁⟩ := hidx₁ i pc hpc
  obtain ⟨t₂, ht₂, hget₂⟩ := hidx₂ i pc hpc
  rw [List.length_nil, Nat.zero_add] at hget₁ hget₂
  have hcong : runsTotal fs₁ "output/distributed" L (distFileName L pc) =
      runsTotal fs₂ "output/distributed" L (distFileName L pc) :=
    runsTotalAux_congr fs₁ fs₂ "output/distributed" L (distFileName L pc)
      (List.range' 1 n_runs) 0 hagree
  rw [hcong, ht₂] at ht₁
  injection ht₁ with he
  rw [hget₁, hget₂, he]
  exact ⟨rfl, by simp⟩

/-- Witness for C9: size 1000, process count 4 (index 2), all eight of its
files reporting 10 seconds; the other process counts report 10 seconds in
one file system and 20 in the other, yet the index-2 rows agree and show an
average of 10. -/
theorem dist_row_noninterference_witness :
    ∃ avgs₁ avgs₂ : List ℚ,
      distAvgs fsAll10 1000 = .ok avgs₁ ∧
      distAvgs fsTwenty 1000 = .ok avgs₂ ∧
      avgs₁.get? 2 = avgs₂.get? 2 ∧
      avgs₁.get? 2 =
        some (((List.range' 1 n_runs).map (fun _ => ((10 : ℕ) : ℚ))).sum / (n_runs : ℚ)) ∧
      ((List.range' 1 n_runs).map (fun _ => ((10 : ℕ) : ℚ))).sum / (n_runs : ℚ) = 10 := by
  have h₁ := distAvgs_values fsAll10 1000 (fun _ _ => ((10 : ℕ) : ℚ)) (by decide)
  have h₂ := distAvgs_values fsTwenty 1000
    (fun pc _ => if pc = 4 then ((10 : ℕ) : ℚ) else ((20 : ℕ) : ℚ)) (by decide)
  have hmain := dist_row_noninterference fsAll10 fsTwenty 1000 4 2 _ _ rfl
    (by decide) h₁ h₂
  refine ⟨_, _, h₁, h₂, hmain.1, rfl, ?_⟩
  rw [show List.range' 1 n_runs = [1, 2, 3, 4, 5, 6, 7, 8] from by decide]
  simp only [List.map_cons, List.map_nil, List.sum_cons, List.sum_nil]
  norm_num [n_runs]

/-- Claim C10: `data/<mode>` is always created, `data/<mode>/L<size>` is
created as soon as the loop reaches that size — before any of that size's
result files is read — and both persist even when the size's step fails and
its summary is never written. -/
theorem outdirs_created (fs : String → Option String) (pre : List ℕ) (L : ℕ)
    (post : List ℕ) (hdec : sequence_lengths = pre ++ L :: post) :
    OUT_DIR ++ "/serial" ∈ (record_serial fs).dirs ∧
    OUT_DIR ++ "/distributed" ∈ (record_distributed fs).dirs ∧
    ((∀ P ∈ pre, exOk (serialStep fs P) = true) →
      serialOutDir L ∈ (record_serial fs).dirs ∧
      (exOk (serialStep fs L) = false →
        (record_serial fs).err ≠ none ∧
        serialOutPath L ∉ (record_serial fs).written.map Prod.fst)) ∧
    ((∀ P ∈ pre, exOk (distStep fs P) = true) →
      distOutDir L ∈ (record_distributed fs).dirs ∧
      (exOk (distStep fs L) = false →
        (record_distributed fs).err ≠ none ∧
        distOutPath L ∉ (record_distributed fs).written.map Prod.fst)) := by
  have hL : L ∈ sequence_lengths := by
    rw [hdec]
    exact List.mem_append_right pre (List.mem_cons_self L post)
  refine ⟨?_, ?_, ?_, ?_⟩
  · exact modeLoop_dirs_mono serialOutDir serialOutPath (serialStep fs)
      sequence_lengths [OUT_DIR ++ "/serial"] [] _ (List.mem_singleton_self _)
  · exact modeLoop_dirs_mono distOutDir distOutPath (distStep fs)
      sequence_lengths [OUT_DIR ++ "/distributed"] [] _ (List.mem_singleton_self _)
  · intro hp
    refine ⟨?_, ?_⟩
    · show serialOutDir L ∈ (modeLoop serialOutDir serialOutPath (serialStep fs)
        sequence_lengths [OUT_DIR ++ "/serial"] []).dirs
      rw [hdec]
      exact modeLoop_dirs_reach serialOutDir serialOutPath (serialStep fs)
        pre L post _ _ hp
    · intro hfail
      exact modeFail_not_written serialOutDir serialOutPath (serialStep fs)
        (OUT_DIR ++ "/serial") L hL (by decide) hfail
  · intro hp
    refine ⟨?_, ?_⟩
    · show distOutDir L ∈ (modeLoop distOutDir distOutPath (distStep fs)
        sequence_lengths [OUT_DIR ++ "/distributed"] []).dirs
      rw [hdec]
      exact modeLoop_dirs_reach distOutDir distOutPath (distStep fs)
        pre L post _ _ hp
    · intro hfail
      exact modeFail_not_written distOutDir distOutPath (distStep fs)
        (OUT_DIR ++ "/distributed") L hL (by decide) hfail

/-- Witness for C10: with every file missing, the failed serial run still
created `data/serial` and `data/serial/L100` (likewise for distributed)
while writing no summary. -/
theorem outdirs_created_witness :
    OUT_DIR ++ "/serial" ∈ (record_serial fsNone).dirs ∧
    OUT_DIR ++ "/distributed" ∈ (record_distributed fsNone).dirs ∧
    serialOutDir 100 ∈ (record_serial fsNone).dirs ∧
    distOutDir 100 ∈ (record_distributed fsNone).dirs ∧
    (record_serial fsNone).err ≠ none ∧
    serialOutPath 100 ∉ (record_serial fsNone).written.map Prod.fst := by
  have h := outdirs_created fsNone [] 100 [1000, 10000] rfl
  have hs := h.2.2.1 (fun P hP => absurd hP (List.not_mem_nil P))
  have hd := h.2.2.2 (fun P hP => absurd hP (List.not_mem_nil P))
  have hf := hs.2 (by decide)
  exact ⟨h.1, h.2.1, hs.1, hd.1, hf.1, hf.2⟩

end RecordData
